import Mathlib

/-!
Verification of the `era` calendar interval core and of its example calendar
application.

The core library (ViewWindow calculator, Splitter, MonthPadder, Predicates)
is not present in the repository sources; only the example application that
calls it is.  Following the specification, the core operations are modelled
here from the spec's words, while the example components (`CalendarDay`,
`CalendarTimeZones`, `CalendarMonth`, `CalendarMiniMonth`, `reducer`, the
initial state) are embedded from `src/example/index.tsx`.

Time model: a TimePoint is an instant, measured in minutes since
1970-01-01 00:00 Eastern Standard Time, carrying the zone America/New_York.
The zone's offset table is the 2021 excerpt of tzdata: DST is in force from
2021-03-14 07:00 UTC (instant `nyDstStart`) until 2021-11-07 06:00 UTC
(instant `nyDstEnd`); `localMin t` is the civil clock reading (in minutes
since the civil epoch) shown at instant `t`.  A calendar date is its number
of days since 1970-01-01 (so 2021-03-14 is day 18700 and 2021-11-07 is day
18938).  An Interval is a half-open pair of instants.

On Int, `/` and `%` denote `Int.ediv` and `Int.emod` (floor division for
positive divisors), which is what all calendar computations below use.
-/

/-- Instant of the 2021 US spring-forward transition (2021-03-14 02:00 EST),
in minutes since the epoch: 18700 * 1440 + 120. -/

def nyDstStart : Int := 26928120

/-- Instant of the 2021 US fall-back transition (2021-11-07 01:00 EST),
in minutes since the epoch: 18938 * 1440 + 60. -/

def nyDstEnd : Int := 27270780

/-- Whether daylight saving time is in force at instant `t`. -/

def nyDst (t : Int) : Bool := decide (nyDstStart ≤ t ∧ t < nyDstEnd)

/-- The civil (local) clock reading at instant `t`, in minutes:
standard time plus the DST offset of one hour when in force. -/

def localMin (t : Int) : Int := t + (if nyDst t then 60 else 0)

/-- The local calendar date (days since 1970-01-01) at instant `t`. -/

def localDay (t : Int) : Int := localMin t / 1440

/-- The instant at which the local calendar date `d` begins
(local midnight of day `d`). -/

def midnight (d : Int) : Int :=
  if nyDst (1440 * d - 60) then 1440 * d - 60 else 1440 * d

/-!
## Proleptic Gregorian calendar on day numbers

Dates are day numbers (days since 1970-01-01).  `mdays z` shifts to days
since 0000-03-01, which decomposes into a 400-year era (146097 days) and a
day-of-era; a day-of-era decomposes into a March-based year-of-era (years
run from March 1, so the leap day is the last day of a year) and a day of
year; a day of year decomposes into a March-based month (`mp`, 0 = March,
11 = February) and a day of month.  All operations below are exact integer
arithmetic; `/` and `%` are floor division and nonnegative remainder.
-/

/-- Day-of-era on which March-based year-of-era `y` starts:
365 days per year plus one leap day after each year divisible by 4,
save centuries (the 400-year leap day is accounted by the era length). -/

def yStartDoe (y : Int) : Int := 365 * y + y / 4 - y / 100

/-- The March-based year-of-era containing day-of-era `n`: decompose into
century, 4-year block and year within the block. -/

def yoeOf (n : Int) : Int :=
  let c := (4 * n + 3) / 146097
  let r1 := n - 36524 * c
  let q := r1 / 1461
  let r2 := r1 - 1461 * q
  let s := min (r2 / 365) 3
  100 * c + 4 * q + s

/-- Whether March-based year-of-era `y` has 366 days (its trailing February
has a leap day). -/

def marLongYear (y : Int) : Bool :=
  decide ((y + 1) % 4 = 0 ∧ ((y + 1) % 100 ≠ 0 ∨ y + 1 = 400))

/-- Day of March-based year on which March-based month `mp` starts
(0 = March, ..., 11 = February). -/

def mpStart (mp : Int) : Int := (153 * mp + 2) / 5

/-- The March-based month containing day-of-year `doy`. -/

def mpOfDoy (doy : Int) : Int := (5 * doy + 2) / 153

/-- Day number shifted to days since 0000-03-01. -/

def mdays (z : Int) : Int := z + 719468

/-- 400-year era containing day `z`. -/

def eraOf (z : Int) : Int := mdays z / 146097

/-- Day within the era of day `z`. -/

def doeOf (z : Int) : Int := mdays z % 146097

/-- March-based year number (years since 0000-03-01) containing day `z`. -/

def yearsIdx (z : Int) : Int := 400 * eraOf z + yoeOf (doeOf z)

/-- Day of the March-based year containing day `z`. -/

def doyOfZ (z : Int) : Int := doeOf z - yStartDoe (yoeOf (doeOf z))

/-- March-based month within the year (0 = March) containing day `z`. -/

def mpOfZ (z : Int) : Int := mpOfDoy (doyOfZ z)

/-- March-based month number (months since 0000-03) containing day `z`. -/

def monthsIdx (z : Int) : Int := 12 * yearsIdx z + mpOfZ z

/-- First day of March-based year number `y`. -/

def yearStartD (y : Int) : Int :=
  146097 * (y / 400) + yStartDoe (y % 400) - 719468

/-- First day of March-based month number `m`. -/

def monthStartD (m : Int) : Int := yearStartD (m / 12) + mpStart (m % 12)

/-- First day of the (civil) calendar month containing day `z`. -/

def fomD (z : Int) : Int := monthStartD (monthsIdx z)

/-- First day of the calendar month after the one containing day `z`. -/

def nextFomD (z : Int) : Int := monthStartD (monthsIdx z + 1)

/-- Civil calendar year of day `z` (March-based year, bumped by one for
January and February, i.e. March-months 10 and 11). -/

def cYearOf (z : Int) : Int := yearsIdx z + (if 10 ≤ mpOfZ z then 1 else 0)

/-- January 1 of the civil year containing day `z` (March-month 10 of the
previous March-based year). -/

def jan1D (z : Int) : Int := monthStartD (12 * (cYearOf z - 1) + 10)

/-- January 1 of the civil year after the one containing day `z`. -/

def nextJanD (z : Int) : Int := monthStartD (12 * cYearOf z + 10)

/-- ISO weekday of day `z` (1 = Monday, ..., 7 = Sunday);
day 0 (1970-01-01) is a Thursday. -/

def weekdayD (z : Int) : Int := (z + 3) % 7 + 1

/-- Most recent Monday at or before day `z` (ISO week start). -/

def sowD (z : Int) : Int := z - (z + 3) % 7

/-!
## The era core, modelled from the spec

The repository does not ship the core's source (only the example app);
every definition in this section is therefore modelled from the
specification's words (sections 3, 4, 6, 7).
-/

/-- Modelled from the spec: the Granularity data type,
one of hour, day, week, month, year (spec section 3). -/

inductive Granularity
  | hour
  | day
  | week
  | month
  | year
deriving DecidableEq

/-- Modelled from the spec: recognition of granularity values; any value
outside the five named ones is unrecognized (UnsupportedGranularity,
spec section 7). -/

def parseGranularity (g : String) : Option Granularity :=
  if g = "hour" then some Granularity.hour
  else if g = "day" then some Granularity.day
  else if g = "week" then some Granularity.week
  else if g = "month" then some Granularity.month
  else if g = "year" then some Granularity.year
  else none

/-- Modelled from the spec: `dayOf(x)`, the interval from the local
midnight of x's day to the next local midnight (spec section 4.1). -/

def dayOf (t : Int) : Int × Int :=
  (midnight (localDay t), midnight (localDay t + 1))

/-- Modelled from the spec: `weekOf(x)`, the interval from the week start
(Monday) of x's day spanning seven calendar days (spec section 4.1). -/

def weekOf (t : Int) : Int × Int :=
  (midnight (sowD (localDay t)), midnight (sowD (localDay t) + 7))

/-- Modelled from the spec: the month view, from the first of x's month to
the first of the next month (spec section 4.1). -/

def monthViewOf (t : Int) : Int × Int :=
  (midnight (fomD (localDay t)), midnight (nextFomD (localDay t)))

/-- Modelled from the spec: the year view, from Jan 1 of x's year to
Jan 1 of the next year (spec section 4.1). -/

def yearViewOf (t : Int) : Int × Int :=
  (midnight (jan1D (localDay t)), midnight (nextJanD (localDay t)))

/-- Modelled from the spec: `viewOfInterval(anchor, granularity)`; defined
for the four view granularities of spec section 4.1 and failing explicitly
on anything unrecognized (spec section 7). -/

def viewOfInterval (t : Int) (g : String) : Option (Int × Int) :=
  match parseGranularity g with
  | some Granularity.day => some (dayOf t)
  | some Granularity.week => some (weekOf t)
  | some Granularity.month => some (monthViewOf t)
  | some Granularity.year => some (yearViewOf t)
  | _ => none

/-- Modelled from the spec: `isToday(x)` compares x's local calendar date
with the (injected) current instant's local date (spec section 4.4). -/

def isToday (x now : Int) : Bool := decide (localDay x = localDay now)

/-- Modelled from the spec: `isWeekend(x)`, x's local weekday is in the
default weekend set, Saturday (6) or Sunday (7) (spec section 4.4). -/

def isWeekend (x : Int) : Bool :=
  decide (weekdayD (localDay x) = 6 ∨ weekdayD (localDay x) = 7)

/-- Modelled from the spec: the PaddingConfig
`(daysPerWeek, weeksPerMonth)` record, default (7, 6) (spec section 3). -/

structure PaddingConfig where
  daysPerWeek : Int
  weeksPerMonth : Int

/-- Modelled from the spec: `paddedMonthOf(anchor, config)`: starts at the
week start of the first of the anchor's month and spans exactly
`weeksPerMonth * daysPerWeek` calendar days (spec section 4.3). -/

def paddedMonthOf (t : Int) (cfg : PaddingConfig) : Int × Int :=
  (midnight (sowD (fomD (localDay t))),
   midnight (sowD (fomD (localDay t)) + cfg.weeksPerMonth * cfg.daysPerWeek))

/-- Fuelled walker for `splitBy`: step forward by a fixed absolute duration,
clamping the final segment at the interval end. -/

def walkBy (dur : Int) : Nat → Int → Int → List (Int × Int)
  | 0, _, _ => []
  | fuel + 1, s, e =>
    if s < e then (s, min (s + dur) e) :: walkBy dur fuel (min (s + dur) e) e
    else []

/-- Modelled from the spec: `splitBy(interval, duration)` walks forward from
the interval start by a fixed absolute duration (in minutes), regardless of
calendar alignment (spec section 4.2).  One minute of fuel per minute of
interval length is enough since every step advances by at least a minute. -/

def splitBy (i : Int × Int) (dur : Int) : List (Int × Int) :=
  if 0 < dur then walkBy dur (i.2 - i.1).toNat i.1 i.2 else []

/-- Modelled from the spec: advancing an instant by one calendar unit in the
local zone (spec section 4.2); an hour is a fixed absolute hour, the other
units advance to the next corresponding calendar boundary. -/

def stepG (g : Granularity) (t : Int) : Int :=
  match g with
  | Granularity.hour => t + 60
  | Granularity.day => midnight (localDay t + 1)
  | Granularity.week => midnight (sowD (localDay t) + 7)
  | Granularity.month => midnight (nextFomD (localDay t))
  | Granularity.year => midnight (nextJanD (localDay t))

/-- Fuelled walker for `splitByUnit`. -/

def walkUnit (g : Granularity) : Nat → Int → Int → List (Int × Int)
  | 0, _, _ => []
  | fuel + 1, s, e =>
    if s < e then (s, stepG g s) :: walkUnit g fuel (stepG g s) e
    else []

/-- Modelled from the spec: whether an instant is aligned to a whole unit of
the given granularity (spec sections 4.2 and 7). -/

def alignedG (g : Granularity) (t : Int) : Bool :=
  match g with
  | Granularity.hour => decide (t % 60 = 0)
  | Granularity.day => decide (t = midnight (localDay t))
  | Granularity.week =>
    decide (t = midnight (localDay t) ∧ sowD (localDay t) = localDay t)
  | Granularity.month =>
    decide (t = midnight (localDay t) ∧ fomD (localDay t) = localDay t)
  | Granularity.year =>
    decide (t = midnight (localDay t) ∧ jan1D (localDay t) = localDay t)

/-- Modelled from the spec: `splitByUnit(interval, unit)` walks forward one
calendar unit at a time; an unrecognized unit or an interval not aligned to
whole units fails explicitly (spec sections 4.2 and 7). -/

def splitByUnit (i : Int × Int) (g : String) : Option (List (Int × Int)) :=
  match parseGranularity g with
  | none => none
  | some u =>
    if alignedG u i.1 ∧ alignedG u i.2 ∧ i.1 ≤ i.2
    then some (walkUnit u (i.2 - i.1).toNat i.1 i.2)
    else none

/-- Modelled from the spec: `viewOfDays(anchor, granularity)`: one day for
the day view, seven consecutive days for the week view, the padded-month
days for the month view; the year view is not expanded to days
(spec section 4.1). -/

def viewOfDays (t : Int) (g : String) : Option (List (Int × Int)) :=
  match parseGranularity g with
  | some Granularity.day => some [dayOf t]
  | some Granularity.week =>
    some ((List.range 7).map fun k =>
      (midnight (sowD (localDay t) + (k : Int)),
       midnight (sowD (localDay t) + (k : Int) + 1)))
  | some Granularity.month => splitByUnit (paddedMonthOf t (PaddingConfig.mk 7 6)) "day"
  | _ => none

/-- Calendar-day subtraction as the external date library performs it for
`x.minus(\x7bdays: k\x7d)`: keep the local clock reading, move the local
date back by `k`. -/

def minusDays (t k : Int) : Int :=
  midnight (localDay t - k) + (localMin t - 1440 * localDay t)

/-!
## The example application, embedded from `src/example/index.tsx`
-/

/-- The example's `View` type. -/

inductive View
  | day
  | week
  | month
  | year
deriving DecidableEq

/-- The granularity string the example passes for each view. -/

def viewGranularity : View → String
  | View.day => "day"
  | View.week => "week"
  | View.month => "month"
  | View.year => "year"

/-- Total version of the view window for the four example views. -/

def viewWindowOfView (t : Int) : View → Int × Int
  | View.day => dayOf t
  | View.week => weekOf t
  | View.month => monthViewOf t
  | View.year => yearViewOf t

/-- The example's `CalendarState` record. -/

structure CalendarState where
  view : View
  datetime : Int
  interval : Int × Int

/-- The example's `CalendarAction` union, plus a constructor for any other
(unrecognized) action type, which the reducer's default branch handles. -/

inductive CalendarAction
  | setView (payload : View)
  | setDatetime (payload : Int)
  | otherAction (type : String)

/-- Embedded from `reducer` in `src/example/index.tsx`. -/

def reducer (state : CalendarState) : CalendarAction → CalendarState
  | CalendarAction.setView v =>
    CalendarState.mk v state.datetime (viewWindowOfView state.datetime v)
  | CalendarAction.setDatetime x =>
    CalendarState.mk state.view x (viewWindowOfView x state.view)
  | CalendarAction.otherAction _ => state

/-- Embedded from `initialState` in `src/example/index.tsx`, with the
ambient clock passed explicitly. -/

def initialState (now : Int) : CalendarState :=
  CalendarState.mk View.week now (weekOf now)

/-- Embedded from `CalendarDay` in `src/example/index.tsx`: the half-hour
segments it renders for a day starting at `dayStart` — recomputed from the
day two days earlier whenever the count differs from 48. -/

def calendarDaySegments (dayStart : Int) : List (Int × Int) :=
  let segments := splitBy (dayOf dayStart) 30
  if segments.length ≠ 48
  then splitBy (dayOf (minusDays dayStart 2)) 30
  else segments

/-- Embedded from `CalendarTimeZones` in `src/example/index.tsx`: the hour
segments it renders given the current instant — recomputed from the day two
days earlier whenever the count differs from 48. -/

def calendarTimeZonesSegments (now : Int) : Option (List (Int × Int)) :=
  (splitByUnit (dayOf now) "hour").bind fun segments =>
    if segments.length ≠ 48
    then splitByUnit (dayOf (minusDays now 2)) "hour"
    else some segments

/-- Embedded from `CalendarMonth` in `src/example/index.tsx`: the grid
column assigned to the day at index `i` with the given ISO weekday. -/

def gridColumnMonth (i : Nat) (weekday : Int) : Option Int :=
  if i = 0 then some (if weekday = 7 then 0 else weekday + 1) else none

/-- Embedded from `CalendarMiniMonth` in `src/example/index.tsx`: the grid
column assigned to the day at index `i` with the given ISO weekday. -/

def gridColumnMiniMonth (i : Nat) (weekday : Int) : Option Int :=
  if i = 0 then some (if weekday = 7 then 0 else weekday + 1) else none

theorem nyDst_iff (t : Int) : nyDst t = true ↔ nyDstStart ≤ t ∧ t < nyDstEnd := by
  simp [nyDst]

/-- Local midnight of day `d` indeed shows local clock reading
exactly `1440 * d`. -/

theorem localMin_midnight (d : Int) : localMin (midnight d) = 1440 * d := by
  simp only [localMin, midnight, nyDst, decide_eq_true_eq, nyDstStart, nyDstEnd]
  split <;> (try split) <;> omega

theorem localDay_midnight (d : Int) : localDay (midnight d) = d := by
  unfold localDay
  rw [localMin_midnight]
  omega

/-- Bounds for local midnight relative to the standard-time midnight. -/

theorem midnight_bounds (d : Int) :
    1440 * d - 60 ≤ midnight d ∧ midnight d ≤ 1440 * d := by
  unfold midnight
  split <;> omega

/-- The absolute length (in minutes) of the local calendar day `d`:
1380 on the 2021 spring-forward date, 1500 on the fall-back date,
1440 otherwise. -/

theorem dayLen_eq (d : Int) :
    midnight (d + 1) - midnight d =
      if d = 18700 then 1380 else if d = 18938 then 1500 else 1440 := by
  simp only [midnight, nyDst, decide_eq_true_eq, nyDstStart, nyDstEnd]
  split <;> split <;> split <;> (try split) <;> omega

theorem yStartDoe_decomp (b q s : Int) (hq0 : 0 ≤ q) (hq1 : q ≤ 24)
    (hs0 : 0 ≤ s) (hs1 : s ≤ 3) :
    yStartDoe (100 * b + 4 * q + s) = 36524 * b + 1461 * q + 365 * s := by
  unfold yStartDoe
  omega

theorem marLongYear_decomp (b q s : Int) (hb0 : 0 ≤ b) (hb1 : b ≤ 3)
    (hq0 : 0 ≤ q) (hq1 : q ≤ 24) (hs0 : 0 ≤ s) (hs1 : s ≤ 3) :
    marLongYear (100 * b + 4 * q + s) = true ↔ (s = 3 ∧ (q ≠ 24 ∨ b = 3)) := by
  simp only [marLongYear, decide_eq_true_eq]
  omega

/-- Correctness of `yoeOf` on a day-of-era: it names a year of the era whose
start is at or before `n`, with the day-of-year within the year's length. -/

theorem yoeOf_spec (n : Int) (h0 : 0 ≤ n) (h1 : n ≤ 146096) :
    0 ≤ yoeOf n ∧ yoeOf n ≤ 399 ∧ yStartDoe (yoeOf n) ≤ n ∧
      n - yStartDoe (yoeOf n) ≤ 364 + (if marLongYear (yoeOf n) then 1 else 0) := by
  have hb0 : 0 ≤ (4 * n + 3) / 146097 := by omega
  have hb1 : (4 * n + 3) / 146097 ≤ 3 := by omega
  set b := (4 * n + 3) / 146097 with hbdef
  have hr1a : 36524 * b ≤ n := by omega
  have hr1b : n - 36524 * b ≤ 36523 + (if b = 3 then 1 else 0) := by split <;> omega
  set r1 := n - 36524 * b with hr1def
  have hq0 : 0 ≤ r1 / 1461 := by omega
  have hq1 : r1 / 1461 ≤ 24 := by omega
  set q := r1 / 1461 with hqdef
  have hr2a : 1461 * q ≤ r1 := by omega
  have hr2b : r1 - 1461 * q ≤ 1460 := by omega
  set r2 := r1 - 1461 * q with hr2def
  have hs0 : 0 ≤ min (r2 / 365) 3 := by omega
  have hs1 : min (r2 / 365) 3 ≤ 3 := by omega
  set s := min (r2 / 365) 3 with hsdef
  have hsa : 365 * s ≤ r2 := by omega
  have hsb : r2 - 365 * s ≤ 364 + (if s = 3 then 1 else 0) := by split <;> omega
  have hyoe : yoeOf n = 100 * b + 4 * q + s := by
    simp only [yoeOf]
  rw [hyoe, yStartDoe_decomp b q s hq0 hq1 hs0 hs1]
  refine ⟨by omega, by omega, by omega, ?_⟩
  by_cases hlong : marLongYear (100 * b + 4 * q + s) = true
  · rw [if_pos hlong]
    omega
  · rw [if_neg hlong]
    rw [marLongYear_decomp b q s hb0 hb1 hq0 hq1 hs0 hs1] at hlong
    split at hr1b <;> split at hsb <;> omega

/-- `yoeOf` inverts the year-start computation: any day within year `Y` of
the era is assigned to year `Y`. -/

theorem yoeOf_inv (Y d : Int) (hY0 : 0 ≤ Y) (hY1 : Y ≤ 399) (hd0 : 0 ≤ d)
    (hd1 : d ≤ 364 + (if marLongYear Y then 1 else 0)) :
    yoeOf (yStartDoe Y + d) = Y := by
  set b := Y / 100 with hbdef
  have hb0 : 0 ≤ b := by omega
  have hb1 : b ≤ 3 := by omega
  set q := (Y - 100 * b) / 4 with hqdef
  have hq0 : 0 ≤ q := by omega
  have hq1 : q ≤ 24 := by omega
  set s := Y - 100 * b - 4 * q with hsdef
  have hs0 : 0 ≤ s := by omega
  have hs1 : s ≤ 3 := by omega
  have hY : Y = 100 * b + 4 * q + s := by omega
  have hys : yStartDoe Y = 36524 * b + 1461 * q + 365 * s := by
    rw [hY]
    exact yStartDoe_decomp b q s hq0 hq1 hs0 hs1
  have hlong : marLongYear Y = true ↔ (s = 3 ∧ (q ≠ 24 ∨ b = 3)) := by
    rw [hY]
    exact marLongYear_decomp b q s hb0 hb1 hq0 hq1 hs0 hs1
  have hd1' : d ≤ 364 + (if (s = 3 ∧ (q ≠ 24 ∨ b = 3)) then 1 else 0) := by
    cases hml : marLongYear Y with
    | false =>
      have hnot : ¬ (s = 3 ∧ (q ≠ 24 ∨ b = 3)) := by
        rw [← hlong]
        simp [hml]
      rw [if_neg hnot]
      rw [hml, if_neg (by simp)] at hd1
      omega
    | true =>
      rw [hml, if_pos rfl] at hd1
      rw [if_pos (hlong.mp hml)]
      omega
  clear hd1 hlong
  set n := yStartDoe Y + d with hndef
  have hn : n = 36524 * b + 1461 * q + 365 * s + d := by omega
  simp only [yoeOf]
  have h1 : (4 * n + 3) / 146097 = b := by
    split at hd1' <;> omega
  rw [h1]
  have h2 : (n - 36524 * b) / 1461 = q := by omega
  rw [h2]
  have h3 : min ((n - 36524 * b - 1461 * q) / 365) 3 = s := by
    split at hd1' <;> omega
  rw [h3]
  omega

theorem mpOfDoy_spec (doy : Int) (h0 : 0 ≤ doy) (h1 : doy ≤ 365) :
    0 ≤ mpOfDoy doy ∧ mpOfDoy doy ≤ 11 ∧ mpStart (mpOfDoy doy) ≤ doy ∧
      (mpOfDoy doy ≤ 10 → doy < mpStart (mpOfDoy doy + 1)) := by
  unfold mpOfDoy mpStart
  omega

theorem mpOfDoy_mpStart (mp : Int) (h0 : 0 ≤ mp) (h1 : mp ≤ 11) :
    mpOfDoy (mpStart mp) = mp := by
  unfold mpOfDoy mpStart
  omega

theorem monthStartD_decomp (E YOE MP : Int) (hY0 : 0 ≤ YOE) (hY1 : YOE ≤ 399)
    (hMP0 : 0 ≤ MP) (hMP1 : MP ≤ 11) :
    monthStartD (12 * (400 * E + YOE) + MP)
      = 146097 * E + (yStartDoe YOE + mpStart MP) - 719468 := by
  unfold monthStartD yearStartD
  have h1 : (12 * (400 * E + YOE) + MP) / 12 = 400 * E + YOE := by omega
  have h2 : (12 * (400 * E + YOE) + MP) % 12 = MP := by omega
  rw [h1, h2]
  have h3 : (400 * E + YOE) / 400 = E := by omega
  have h4 : (400 * E + YOE) % 400 = YOE := by omega
  rw [h3, h4]
  ring

/-- Every day number decomposes into an era, a year of era and a day within
that year's length. -/

theorem exists_decomp (z : Int) :
    ∃ e Y d, 0 ≤ Y ∧ Y ≤ 399 ∧ 0 ≤ d ∧
      d ≤ 364 + (if marLongYear Y then 1 else 0) ∧
      z = 146097 * e + (yStartDoe Y + d) - 719468 := by
  have h0 : 0 ≤ (z + 719468) % 146097 := by omega
  have h1 : (z + 719468) % 146097 ≤ 146096 := by omega
  obtain ⟨hY0, hY1, hle, hub⟩ := yoeOf_spec ((z + 719468) % 146097) h0 h1
  exact ⟨(z + 719468) / 146097, yoeOf ((z + 719468) % 146097),
         (z + 719468) % 146097 - yStartDoe (yoeOf ((z + 719468) % 146097)),
         hY0, hY1, by omega, by omega, by omega⟩

theorem monthsIdx_eval (e Y d : Int) (hY0 : 0 ≤ Y) (hY1 : Y ≤ 399) (hd0 : 0 ≤ d)
    (hd1 : d ≤ 364 + (if marLongYear Y then 1 else 0)) :
    monthsIdx (146097 * e + (yStartDoe Y + d) - 719468)
      = 12 * (400 * e + Y) + mpOfDoy d := by
  unfold monthsIdx yearsIdx mpOfZ doyOfZ eraOf doeOf mdays
  have hys0 : 0 ≤ yStartDoe Y := by unfold yStartDoe; omega
  have hys1 : yStartDoe Y ≤ 145731 := by unfold yStartDoe; omega
  have hd365 : d ≤ 365 := by split at hd1 <;> omega
  have h1 : 146097 * e + (yStartDoe Y + d) - 719468 + 719468
      = 146097 * e + (yStartDoe Y + d) := by ring
  rw [h1]
  have h2 : (146097 * e + (yStartDoe Y + d)) / 146097 = e := by omega
  have h3 : (146097 * e + (yStartDoe Y + d)) % 146097 = yStartDoe Y + d := by omega
  rw [h2, h3]
  rw [yoeOf_inv Y d hY0 hY1 hd0 hd1]
  have h4 : yStartDoe Y + d - yStartDoe Y = d := by ring
  rw [h4]

/-- Successor rule for year starts within an era. -/

theorem yStartDoe_succ (Y : Int) (h0 : 0 ≤ Y) (h1 : Y ≤ 398) :
    yStartDoe (Y + 1) = yStartDoe Y + 365 + (if marLongYear Y then 1 else 0) := by
  simp only [yStartDoe, marLongYear, decide_eq_true_eq]
  split <;> omega

/-- Galois property: `fomD z` and `nextFomD z` bracket `z`. -/

theorem fom_galois (z : Int) : fomD z ≤ z ∧ z < nextFomD z := by
  obtain ⟨e, Y, d, hY0, hY1, hd0, hd1, hz⟩ := exists_decomp z
  subst hz
  unfold fomD nextFomD
  rw [monthsIdx_eval e Y d hY0 hY1 hd0 hd1]
  have hd365 : d ≤ 365 := by split at hd1 <;> omega
  obtain ⟨hmp0, hmp1, hmple, hmpub⟩ := mpOfDoy_spec d hd0 hd365
  rw [monthStartD_decomp e Y (mpOfDoy d) hY0 hY1 hmp0 hmp1]
  refine ⟨by omega, ?_⟩
  by_cases hmp10 : mpOfDoy d ≤ 10
  · have h12 : 12 * (400 * e + Y) + mpOfDoy d + 1
        = 12 * (400 * e + Y) + (mpOfDoy d + 1) := by ring
    rw [h12, monthStartD_decomp e Y (mpOfDoy d + 1) hY0 hY1 (by omega) (by omega)]
    have := hmpub hmp10
    omega
  · have hmp_eq : mpOfDoy d = 11 := by omega
    have h337 : mpStart 11 = 337 := by decide
    have hd337 : 337 ≤ d := by
      have := hmple
      rw [hmp_eq, h337] at this
      exact this
    by_cases hY398 : Y ≤ 398
    · have h12 : 12 * (400 * e + Y) + mpOfDoy d + 1
          = 12 * (400 * e + (Y + 1)) + 0 := by rw [hmp_eq]; ring
      rw [h12, monthStartD_decomp e (Y + 1) 0 (by omega) (by omega)
            (by omega) (by omega)]
      have hsucc := yStartDoe_succ Y hY0 hY398
      have hmp00 : mpStart 0 = 0 := by decide
      split at hd1 <;> split at hsucc <;> omega
    · have hY' : Y = 399 := by omega
      subst hY'
      have h12 : 12 * (400 * e + 399) + mpOfDoy d + 1
          = 12 * (400 * (e + 1) + 0) + 0 := by rw [hmp_eq]; ring
      rw [h12, monthStartD_decomp (e + 1) 0 0 (by omega) (by omega)
            (by omega) (by omega)]
      have hv1 : yStartDoe 399 = 145731 := by decide
      have hv2 : yStartDoe 0 = 0 := by decide
      have hmp00 : mpStart 0 = 0 := by decide
      split at hd1 <;> omega

/-- `monthsIdx` inverts `monthStartD`. -/

theorem monthsIdx_monthStartD (m : Int) : monthsIdx (monthStartD m) = m := by
  have hMP0 : 0 ≤ m % 12 := by omega
  have hMP1 : m % 12 ≤ 11 := by omega
  have hY0 : 0 ≤ (m / 12) % 400 := by omega
  have hY1 : (m / 12) % 400 ≤ 399 := by omega
  have hm : m = 12 * (400 * ((m / 12) / 400) + (m / 12) % 400) + m % 12 := by omega
  generalize hE : (m / 12) / 400 = E at hm
  generalize hYOE : (m / 12) % 400 = YOE at hm hY0 hY1
  generalize hMP : m % 12 = MP at hm hMP0 hMP1
  rw [hm]
  rw [monthStartD_decomp E YOE MP hY0 hY1 hMP0 hMP1]
  have hmp0' : 0 ≤ mpStart MP := by unfold mpStart; omega
  have hmp1' : mpStart MP ≤ 337 := by unfold mpStart; omega
  have h4 : monthsIdx (146097 * E + (yStartDoe YOE + mpStart MP) - 719468)
      = 12 * (400 * E + YOE) + mpOfDoy (mpStart MP) :=
    monthsIdx_eval E YOE (mpStart MP) hY0 hY1 hmp0' (by split <;> omega)
  rw [h4, mpOfDoy_mpStart MP hMP0 hMP1]

/-- Calendar month lengths are between 28 and 31 days. -/

theorem monthLen_bounds (m : Int) :
    28 ≤ monthStartD (m + 1) - monthStartD m ∧
      monthStartD (m + 1) - monthStartD m ≤ 31 := by
  have hMP0 : 0 ≤ m % 12 := by omega
  have hMP1 : m % 12 ≤ 11 := by omega
  have hY0 : 0 ≤ (m / 12) % 400 := by omega
  have hY1 : (m / 12) % 400 ≤ 399 := by omega
  have hm : m = 12 * (400 * ((m / 12) / 400) + (m / 12) % 400) + m % 12 := by omega
  generalize hE : (m / 12) / 400 = E at hm
  generalize hYOE : (m / 12) % 400 = YOE at hm hY0 hY1
  generalize hMP : m % 12 = MP at hm hMP0 hMP1
  rw [hm]
  rw [monthStartD_decomp E YOE MP hY0 hY1 hMP0 hMP1]
  by_cases hmp10 : MP ≤ 10
  · have h12 : 12 * (400 * E + YOE) + MP + 1 = 12 * (400 * E + YOE) + (MP + 1) := by
      ring
    rw [h12, monthStartD_decomp E YOE (MP + 1) hY0 hY1 (by omega) (by omega)]
    unfold mpStart
    omega
  · have hMP11 : MP = 11 := by omega
    subst hMP11
    by_cases hY398 : YOE ≤ 398
    · have h12 : 12 * (400 * E + YOE) + 11 + 1 = 12 * (400 * E + (YOE + 1)) + 0 := by
        ring
      rw [h12, monthStartD_decomp E (YOE + 1) 0 (by omega) (by omega)
            (by omega) (by omega)]
      have hsucc := yStartDoe_succ YOE hY0 hY398
      have hmp00 : mpStart 0 = 0 := by decide
      have hmp11 : mpStart 11 = 337 := by decide
      split at hsucc <;> omega
    · have hY' : YOE = 399 := by omega
      subst hY'
      have h12 : 12 * (400 * E + 399) + 11 + 1 = 12 * (400 * (E + 1) + 0) + 0 := by
        ring
      rw [h12, monthStartD_decomp (E + 1) 0 0 (by omega) (by omega)
            (by omega) (by omega)]
      have hv1 : yStartDoe 399 = 145731 := by decide
      have hv2 : yStartDoe 0 = 0 := by decide
      have hmp00 : mpStart 0 = 0 := by decide
      have hmp11 : mpStart 11 = 337 := by decide
      omega

theorem monthStartD_mono {a b : Int} (h : a ≤ b) :
    monthStartD a ≤ monthStartD b := by
  have key : ∀ k : Nat, monthStartD a ≤ monthStartD (a + k) := by
    intro k
    induction k with
    | zero => simp
    | succ n ih =>
      have h1 := (monthLen_bounds (a + n)).1
      have h2 : a + ((n : Int) + 1) = (a + n) + 1 := by ring
      push_cast
      rw [h2]
      omega
  have hb : b = a + ((b - a).toNat : Int) := by omega
  rw [hb]
  exact key _

/-- The month-view fixpoint at day level: the first of the month of the
first of the month is the first of the month itself. -/

theorem fomD_fomD (z : Int) : fomD (fomD z) = fomD z := by
  unfold fomD
  rw [monthsIdx_monthStartD]

theorem nextFomD_fomD (z : Int) : nextFomD (fomD z) = nextFomD z := by
  unfold fomD nextFomD
  rw [monthsIdx_monthStartD]

/-- Month length at day level is between 28 and 31 days. -/

theorem fom_nextFom_len (z : Int) :
    28 ≤ nextFomD z - fomD z ∧ nextFomD z - fomD z ≤ 31 := by
  unfold fomD nextFomD
  exact monthLen_bounds (monthsIdx z)

theorem mpOfZ_bounds (z : Int) : 0 ≤ mpOfZ z ∧ mpOfZ z ≤ 11 := by
  unfold mpOfZ doyOfZ
  have h0 : 0 ≤ doeOf z := by unfold doeOf mdays; omega
  have h1 : doeOf z ≤ 146096 := by unfold doeOf mdays; omega
  obtain ⟨hY0, hY1, hle, hub⟩ := yoeOf_spec (doeOf z) h0 h1
  have hd365 : doeOf z - yStartDoe (yoeOf (doeOf z)) ≤ 365 := by
    split at hub <;> omega
  obtain ⟨a, b, _, _⟩ := mpOfDoy_spec _ (by omega) hd365
  exact ⟨a, b⟩

theorem yearsIdx_mpOfZ_of_monthsIdx (z : Int) :
    yearsIdx z = monthsIdx z / 12 ∧ mpOfZ z = monthsIdx z % 12 := by
  obtain ⟨h0, h1⟩ := mpOfZ_bounds z
  unfold monthsIdx
  omega

theorem cYearOf_eval (w c : Int) (h : monthsIdx w = 12 * (c - 1) + 10) :
    cYearOf w = c := by
  obtain ⟨hy, hm⟩ := yearsIdx_mpOfZ_of_monthsIdx w
  unfold cYearOf
  rw [hy, hm, h]
  split <;> omega

/-- The year-view fixpoint at day level. -/

theorem jan1D_jan1D (z : Int) : jan1D (jan1D z) = jan1D z := by
  unfold jan1D
  rw [cYearOf_eval _ (cYearOf z) (monthsIdx_monthStartD _)]

theorem nextJanD_jan1D (z : Int) : nextJanD (jan1D z) = nextJanD z := by
  unfold nextJanD jan1D
  rw [cYearOf_eval _ (cYearOf z) (monthsIdx_monthStartD _)]

/-- Galois property of the civil year window. -/

theorem jan1_galois (z : Int) : jan1D z ≤ z ∧ z < nextJanD z := by
  obtain ⟨hmp0, hmp1⟩ := mpOfZ_bounds z
  have hgal := fom_galois z
  have hmidx : monthsIdx z = 12 * yearsIdx z + mpOfZ z := rfl
  unfold fomD nextFomD at hgal
  unfold jan1D nextJanD cYearOf
  constructor
  · calc monthStartD (12 * (yearsIdx z + (if 10 ≤ mpOfZ z then 1 else 0) - 1) + 10)
        ≤ monthStartD (monthsIdx z) := monthStartD_mono (by split <;> omega)
      _ ≤ z := hgal.1
  · calc z < monthStartD (monthsIdx z + 1) := hgal.2
      _ ≤ monthStartD (12 * (yearsIdx z + (if 10 ≤ mpOfZ z then 1 else 0)) + 10) :=
          monthStartD_mono (by split <;> omega)

theorem sowD_props (z : Int) :
    sowD z ≤ z ∧ z - sowD z ≤ 6 ∧ sowD (sowD z) = sowD z := by
  unfold sowD
  omega

theorem weekdayD_bounds (z : Int) : 1 ≤ weekdayD z ∧ weekdayD z ≤ 7 := by
  unfold weekdayD
  omega

/-! ## Counting and alignment lemmas -/

theorem midnight_mono {d e : Int} (h : d ≤ e) : midnight d ≤ midnight e := by
  simp only [midnight, nyDst, decide_eq_true_eq, nyDstStart, nyDstEnd]
  split <;> split <;> omega

theorem midnight_strict_mono {d e : Int} (h : d < e) : midnight d < midnight e := by
  simp only [midnight, nyDst, decide_eq_true_eq, nyDstStart, nyDstEnd]
  split <;> split <;> omega

theorem midnight_mod60 (d : Int) : midnight d % 60 = 0 := by
  unfold midnight
  split <;> omega

/-- Day lengths stay between 23 and 25 hours. -/

theorem dayLen_bounds (d : Int) :
    1380 ≤ midnight (d + 1) - midnight d ∧ midnight (d + 1) - midnight d ≤ 1500 := by
  have h := dayLen_eq d
  split at h <;> (try split at h) <;> omega

/-- Length of the fixed-duration walker for 30-minute steps. -/

theorem walkBy30_length (fuel : Nat) : ∀ s e : Int, e - s ≤ (fuel : Int) →
    ((walkBy 30 fuel s e).length : Int) = (max (e - s) 0 + 29) / 30 := by
  induction fuel with
  | zero =>
    intro s e hfuel
    simp only [walkBy, List.length_nil, Nat.cast_zero]
    omega
  | succ n ih =>
    intro s e hfuel
    simp only [walkBy]
    split
    · have hrec := ih (min (s + 30) e) e (by push_cast at hfuel ⊢; omega)
      simp only [List.length_cons, Nat.cast_add, Nat.cast_one, hrec]
      push_cast at hfuel ⊢
      omega
    · simp only [List.length_nil, Nat.cast_zero]
      omega

/-- The number of half-hour segments of the day view: 46 on the 2021
spring-forward date, 50 on the fall-back date, 48 on every other day. -/

theorem splitBy_dayOf_count (t : Int) :
    ((splitBy (dayOf t) 30).length : Int) =
      if localDay t = 18700 then 46 else if localDay t = 18938 then 50 else 48 := by
  unfold splitBy dayOf
  rw [if_pos (by norm_num : (0 : Int) < 30)]
  have hb := dayLen_bounds (localDay t)
  have h := walkBy30_length
    ((midnight (localDay t + 1) - midnight (localDay t)).toNat)
    (midnight (localDay t)) (midnight (localDay t + 1)) (by omega)
  rw [h]
  have hlen := dayLen_eq (localDay t)
  by_cases h1 : localDay t = 18700
  · rw [if_pos h1] at hlen ⊢
    omega
  · rw [if_neg h1] at hlen ⊢
    by_cases h2 : localDay t = 18938
    · rw [if_pos h2] at hlen ⊢
      omega
    · rw [if_neg h2] at hlen ⊢
      omega

/-- Length bound for the hour-unit walker. -/

theorem walkUnit_hour_length (fuel : Nat) : ∀ s e : Int,
    60 * ((walkUnit Granularity.hour fuel s e).length : Int) ≤ max (e - s) 0 + 59 := by
  induction fuel with
  | zero =>
    intro s e
    simp only [walkUnit, List.length_nil, Nat.cast_zero]
    omega
  | succ n ih =>
    intro s e
    simp only [walkUnit, stepG]
    split
    · have hrec := ih (s + 60) e
      simp only [List.length_cons, Nat.cast_add, Nat.cast_one]
      omega
    · simp only [List.length_nil, Nat.cast_zero]
      omega

theorem parseGranularity_hour : parseGranularity "hour" = some Granularity.hour := by
  rfl

/-- `minus(\x7bdays: k\x7d)` on a local midnight lands at the earlier
day's local midnight. -/

theorem minusDays_midnight (d k : Int) :
    minusDays (midnight d) k = midnight (d - k) := by
  unfold minusDays
  rw [localDay_midnight, localMin_midnight]
  ring

/-- The hour split of any day view succeeds and yields at most 25 segments. -/

theorem splitByUnit_hour_dayOf (t : Int) :
    splitByUnit (dayOf t) "hour"
        = some (walkUnit Granularity.hour
            ((midnight (localDay t + 1) - midnight (localDay t)).toNat)
            (midnight (localDay t)) (midnight (localDay t + 1))) ∧
      (walkUnit Granularity.hour
          ((midnight (localDay t + 1) - midnight (localDay t)).toNat)
          (midnight (localDay t)) (midnight (localDay t + 1))).length ≤ 25 := by
  constructor
  · have h1 : alignedG Granularity.hour (midnight (localDay t)) = true := by
      simp only [alignedG, decide_eq_true_eq]
      exact midnight_mod60 _
    have h2 : alignedG Granularity.hour (midnight (localDay t + 1)) = true := by
      simp only [alignedG, decide_eq_true_eq]
      exact midnight_mod60 _
    have h3 : midnight (localDay t) ≤ midnight (localDay t + 1) :=
      midnight_mono (by omega)
    simp only [splitByUnit, dayOf, parseGranularity_hour]
    rw [if_pos ⟨h1, h2, h3⟩]
  · have hb := dayLen_bounds (localDay t)
    have h := walkUnit_hour_length
      ((midnight (localDay t + 1) - midnight (localDay t)).toNat)
      (midnight (localDay t)) (midnight (localDay t + 1))
    omega

theorem dayOf_start (t : Int) : dayOf (dayOf t).1 = dayOf t := by
  unfold dayOf
  rw [localDay_midnight]

theorem weekOf_start (t : Int) : weekOf (weekOf t).1 = weekOf t := by
  unfold weekOf
  rw [localDay_midnight, (sowD_props (localDay t)).2.2]

theorem monthViewOf_start (t : Int) : monthViewOf (monthViewOf t).1 = monthViewOf t := by
  unfold monthViewOf
  rw [localDay_midnight, fomD_fomD, nextFomD_fomD]

theorem yearViewOf_start (t : Int) : yearViewOf (yearViewOf t).1 = yearViewOf t := by
  unfold yearViewOf
  rw [localDay_midnight, jan1D_jan1D, nextJanD_jan1D]

theorem parseGranularity_eq_none (g : String) (h1 : g ≠ "hour") (h2 : g ≠ "day")
    (h3 : g ≠ "week") (h4 : g ≠ "month") (h5 : g ≠ "year") :
    parseGranularity g = none := by
  unfold parseGranularity
  rw [if_neg h1, if_neg h2, if_neg h3, if_neg h4, if_neg h5]

/-- The view window the example's reducer computes agrees with the core's
`viewOfInterval` on the granularity string the example passes. -/

theorem viewOfInterval_viewGranularity (t : Int) (v : View) :
    viewOfInterval t (viewGranularity v) = some (viewWindowOfView t v) := by
  cases v <;> rfl

/-- The reducer preserves the interval-consistency invariant. -/

theorem reducer_foldl_inv (acts : List CalendarAction) :
    ∀ s : CalendarState, s.interval = viewWindowOfView s.datetime s.view →
      (acts.foldl reducer s).interval
        = viewWindowOfView (acts.foldl reducer s).datetime
            (acts.foldl reducer s).view := by
  induction acts with
  | nil => exact fun s hs => hs
  | cons a rest ih =>
    intro s hs
    simp only [List.foldl_cons]
    apply ih
    cases a with
    | setView v => rfl
    | setDatetime x => rfl
    | otherAction g => exact hs

/-! ## The claims -/

/-- C1 (code bug witness): on the 2021 spring-forward day the true half-hour
segmentation of the day has 46 segments, but the embedded `CalendarDay`
logic renders the segmentation of the day two days earlier (2021-03-12)
instead of the actual day's segmentation. -/

theorem calendarDay_substitutes_on_dst :
    (splitBy (dayOf (midnight 18700)) 30).length = 46 ∧
      calendarDaySegments (midnight 18700) = splitBy (dayOf (midnight 18698)) 30 ∧
      calendarDaySegments (midnight 18700) ≠ splitBy (dayOf (midnight 18700)) 30 := by
  have h46 : ((splitBy (dayOf (midnight 18700)) 30).length : Int) = 46 := by
    have h := splitBy_dayOf_count (midnight 18700)
    rw [localDay_midnight, if_pos rfl] at h
    exact h
  have h48 : ((splitBy (dayOf (midnight 18698)) 30).length : Int) = 48 := by
    have h := splitBy_dayOf_count (midnight 18698)
    rw [localDay_midnight, if_neg (by decide), if_neg (by decide)] at h
    exact h
  have hsub : calendarDaySegments (midnight 18700)
      = splitBy (dayOf (midnight 18698)) 30 := by
    simp only [calendarDaySegments]
    rw [minusDays_midnight, show (18700 : Int) - 2 = 18698 by norm_num]
    rw [if_pos (by omega : (splitBy (dayOf (midnight 18700)) 30).length ≠ 48)]
  refine ⟨by omega, hsub, ?_⟩
  intro heq
  rw [hsub] at heq
  have := congrArg List.length heq
  omega

/-- C2: splitting the day view by a fixed 30-minute duration yields 46
segments on the 2021 spring-forward day (18700 = 2021-03-14), 50 segments on
the fall-back day (18938 = 2021-11-07), and 48 segments on every other day. -/

theorem splitBy_day_counts :
    (∀ t : Int, localDay t = 18700 → (splitBy (dayOf t) 30).length = 46) ∧
      (∀ t : Int, localDay t = 18938 → (splitBy (dayOf t) 30).length = 50) ∧
      (∀ t : Int, localDay t ≠ 18700 → localDay t ≠ 18938 →
        (splitBy (dayOf t) 30).length = 48) := by
  refine ⟨fun t h => ?_, fun t h => ?_, fun t h1 h2 => ?_⟩
  · have hc := splitBy_dayOf_count t
    rw [if_pos h] at hc
    omega
  · have hc := splitBy_dayOf_count t
    rw [if_neg (by omega), if_pos h] at hc
    omega
  · have hc := splitBy_dayOf_count t
    rw [if_neg h1, if_neg h2] at hc
    omega

theorem splitBy_day_counts_witness :
    (splitBy (dayOf 26928000) 30).length = 46 ∧
      (splitBy (dayOf 27270660) 30).length = 50 ∧
      (splitBy (dayOf 0) 30).length = 48 :=
  ⟨splitBy_day_counts.1 26928000 (by decide),
   splitBy_day_counts.2.1 27270660 (by decide),
   splitBy_day_counts.2.2 0 (by decide) (by decide)⟩

/-- C3: in both month grids the first rendered day's grid column maps ISO
weekdays 1 through 6 to weekday + 1 and maps ISO weekday 7 to 0. -/

theorem gridColumn_first_day :
    (∀ w : Int, 1 ≤ w → w ≤ 6 →
        gridColumnMonth 0 w = some (w + 1) ∧
          gridColumnMiniMonth 0 w = some (w + 1)) ∧
      gridColumnMonth 0 7 = some 0 ∧ gridColumnMiniMonth 0 7 = some 0 := by
  refine ⟨fun w h1 h6 => ?_, by decide, by decide⟩
  have hw : ¬ (w = 7) := by omega
  simp [gridColumnMonth, gridColumnMiniMonth, hw]

theorem gridColumn_first_day_witness :
    gridColumnMonth 0 3 = some 4 ∧ gridColumnMiniMonth 0 3 = some 4 :=
  gridColumn_first_day.1 3 (by decide) (by decide)

/-- C4: starting from the initial state and after any sequence of dispatched
actions, the reducer state satisfies
`state.interval = viewOfInterval(state.datetime, state.view)`. -/

theorem reducer_interval_consistent (now : Int) (acts : List CalendarAction) :
    some (acts.foldl reducer (initialState now)).interval
      = viewOfInterval (acts.foldl reducer (initialState now)).datetime
          (viewGranularity (acts.foldl reducer (initialState now)).view) := by
  rw [viewOfInterval_viewGranularity]
  exact congrArg some (reducer_foldl_inv acts (initialState now) rfl)

/-- C5: every granularity value outside hour, day, week, month, year —
including the plural forms the example passes — makes `viewOfInterval`,
`splitByUnit` and `viewOfDays` fail explicitly. -/

theorem unsupported_granularity_fails (t : Int) (i : Int × Int) (g : String)
    (h1 : g ≠ "hour") (h2 : g ≠ "day") (h3 : g ≠ "week") (h4 : g ≠ "month")
    (h5 : g ≠ "year") :
    viewOfInterval t g = none ∧ splitByUnit i g = none ∧ viewOfDays t g = none := by
  have hp := parseGranularity_eq_none g h1 h2 h3 h4 h5
  refine ⟨?_, ?_, ?_⟩ <;> simp only [viewOfInterval, splitByUnit, viewOfDays, hp]

theorem unsupported_granularity_fails_witness :
    (viewOfInterval 0 "days" = none ∧ splitByUnit (0, 0) "days" = none ∧
        viewOfDays 0 "days" = none) ∧
      splitByUnit (0, 0) "months" = none :=
  ⟨unsupported_granularity_fails 0 (0, 0) "days" (by decide) (by decide)
      (by decide) (by decide) (by decide),
    (unsupported_granularity_fails 0 (0, 0) "months" (by decide) (by decide)
      (by decide) (by decide) (by decide)).2.1⟩

/-- C6: the padded month with 7 days per week and 6 weeks spans exactly 42
calendar days, and it contains the whole real month of the anchor. -/

theorem paddedMonthOf_spans_contains (t : Int) :
    localDay (paddedMonthOf t (PaddingConfig.mk 7 6)).2
        - localDay (paddedMonthOf t (PaddingConfig.mk 7 6)).1 = 42 ∧
      (paddedMonthOf t (PaddingConfig.mk 7 6)).1 ≤ (monthViewOf t).1 ∧
      (monthViewOf t).2 ≤ (paddedMonthOf t (PaddingConfig.mk 7 6)).2 := by
  unfold paddedMonthOf monthViewOf
  have hc : (PaddingConfig.mk (7 : Int) 6).weeksPerMonth
      * (PaddingConfig.mk (7 : Int) 6).daysPerWeek = 42 := rfl
  rw [hc]
  have hsow := sowD_props (fomD (localDay t))
  have hlen := fom_nextFom_len (localDay t)
  refine ⟨?_, ?_, ?_⟩
  · rw [localDay_midnight, localDay_midnight]
    omega
  · exact midnight_mono (by omega)
  · exact midnight_mono (by omega)

/-- C7: `viewOfInterval` is a fixpoint under re-anchoring at its own start,
for every granularity on which it succeeds. -/

theorem viewOfInterval_fixpoint (t : Int) (g : String) (i : Int × Int)
    (h : viewOfInterval t g = some i) : viewOfInterval i.1 g = some i := by
  unfold viewOfInterval at h ⊢
  revert h
  cases hp : parseGranularity g with
  | none =>
    intro h
    exact Option.noConfusion h
  | some u =>
    cases u with
    | hour =>
      intro h
      exact Option.noConfusion h
    | day =>
      intro h
      change some (dayOf t) = some i at h
      injection h with h'
      subst h'
      show some (dayOf (dayOf t).1) = some (dayOf t)
      rw [dayOf_start]
    | week =>
      intro h
      change some (weekOf t) = some i at h
      injection h with h'
      subst h'
      show some (weekOf (weekOf t).1) = some (weekOf t)
      rw [weekOf_start]
    | month =>
      intro h
      change some (monthViewOf t) = some i at h
      injection h with h'
      subst h'
      show some (monthViewOf (monthViewOf t).1) = some (monthViewOf t)
      rw [monthViewOf_start]
    | year =>
      intro h
      change some (yearViewOf t) = some i at h
      injection h with h'
      subst h'
      show some (yearViewOf (yearViewOf t).1) = some (yearViewOf t)
      rw [yearViewOf_start]

theorem viewOfInterval_fixpoint_witness :
    viewOfInterval 0 "week" = some (-4320, 5760) ∧
      viewOfInterval (-4320 : Int) "week" = some (-4320, 5760) :=
  ⟨by decide, viewOfInterval_fixpoint 0 "week" (-4320, 5760) (by decide)⟩

/-- C8: `isWeekend` holds exactly on local Saturdays and Sundays,
equivalently exactly when the ISO weekday exceeds 5. -/

theorem isWeekend_iff (x : Int) :
    (isWeekend x = true ↔
        (weekdayD (localDay x) = 6 ∨ weekdayD (localDay x) = 7)) ∧
      (isWeekend x = true ↔ 5 < weekdayD (localDay x)) := by
  have hb := weekdayD_bounds (localDay x)
  unfold isWeekend
  constructor
  · simp only [decide_eq_true_eq]
  · simp only [decide_eq_true_eq]
    omega

/-- C9: the hour split of any day view has at most 25 segments, so the
48-segment guard in `CalendarTimeZones` never passes and the rendered hour
labels always come from the day two days before the current day. -/

theorem calendarTimeZones_always_fallback (now : Int) :
    ∃ L, splitByUnit (dayOf now) "hour" = some L ∧ L.length ≤ 25 ∧
      L.length ≠ 48 ∧
      calendarTimeZonesSegments now
        = splitByUnit (dayOf (minusDays now 2)) "hour" := by
  obtain ⟨hsome, hlen⟩ := splitByUnit_hour_dayOf now
  refine ⟨_, hsome, hlen, by omega, ?_⟩
  unfold calendarTimeZonesSegments
  rw [hsome]
  rw [Option.some_bind]
  rw [if_pos (by omega)]

/-- C10: the reducer only changes the field named by the action (besides the
derived interval): `set.view` keeps the datetime, `set.datetime` keeps the
view, and an unrecognized action type returns the state unchanged. -/

theorem reducer_frame (s : CalendarState) (v : View) (x : Int) (g : String) :
    (reducer s (CalendarAction.setView v)).datetime = s.datetime ∧
      (reducer s (CalendarAction.setDatetime x)).view = s.view ∧
      reducer s (CalendarAction.otherAction g) = s :=
  ⟨rfl, rfl, rfl⟩
